import Mathlib

/-!
Verification of the deenseek Arabic lecture-search service.

The definitions below are shallow embeddings of the Python sources:
  * `src/elastic/arabert_search.py` — text normalisation, query expansion,
    Elasticsearch query composition (`AraBERTSearchEngine`);
  * `src/elastic/app.py` — the `/search` endpoint with its three modes
    (`basic`, `enhanced`, `semantic`) and fallback logic;
  * `src/elastic/app2.py` — the vector-search endpoint with size validation;
  * `src/app_v2.py` / `src/app3.py` — `format_time` and the grouped
    conversation aggregator.

Machine-level details: Python strings are sequences of Unicode code points
(Lean `Char` lists); Python `dict` literals are association lists; numbers
in Elasticsearch query bodies are rationals; Python exceptions are `Except`.
-/

/-- JSON-like values, modelling the Python dicts sent to Elasticsearch. -/
inductive JValue where
  | str (s : String)
  | num (q : ℚ)
  | arr (l : List JValue)
  | obj (kvs : List (String × JValue))

namespace Deenseek

/-! ## Character-level helpers for `preprocess_arabic_text`

`re.sub(r'[ً-ْ]', '', text)` removes the diacritics range;
the three letter folds are `re.sub` on single characters; the final
cleanup keeps `[؀-ۿ\s]` and then does `' '.join(text.split())`
and `.strip()`.  Python's `\s`, `str.split()` and `str.strip()` all use
the same Unicode whitespace set. -/

def isDiacritic (c : Char) : Bool :=
  0x64B ≤ c.toNat && c.toNat ≤ 0x652

/-- Fold of the alef variants: `re.sub(r'[أإآ]', 'ا', text)`. -/
def alefFold (c : Char) : Char :=
  if c = 'أ' || c = 'إ' || c = 'آ' then 'ا' else c

/-- Fold of teh marbuta: `re.sub(r'ة', 'ه', text)`. -/
def tehFold (c : Char) : Char :=
  if c = 'ة' then 'ه' else c

/-- Fold of yeh: `re.sub(r'ي', 'ى', text)`. -/
def yehFold (c : Char) : Char :=
  if c = 'ي' then 'ى' else c

def isArabicChar (c : Char) : Bool :=
  0x600 ≤ c.toNat && c.toNat ≤ 0x6FF

/-- The Unicode whitespace set used by CPython for `\s`, `str.split()`
and `str.strip()`. -/
def pySpace (c : Char) : Bool :=
  let n := c.toNat
  (9 ≤ n && n ≤ 13) || (28 ≤ n && n ≤ 31) || n = 32 || n = 0x85 || n = 0xA0 ||
    n = 0x1680 || (0x2000 ≤ n && n ≤ 0x200A) || n = 0x2028 || n = 0x2029 ||
    n = 0x202F || n = 0x205F || n = 0x3000

/-- `re.sub(r'[^؀-ۿ\s]', ' ', text)`: every character that is
neither in the Arabic block nor whitespace becomes a space. -/
def spaceify (c : Char) : Char :=
  if isArabicChar c || pySpace c then c else ' '

/-- Accumulator pass of `str.split()`: split on runs of whitespace,
dropping empty pieces.  `acc` holds the current word reversed. -/
def splitWsAux : List Char → List Char → List (List Char)
  | [], acc => if acc.isEmpty then [] else [acc.reverse]
  | c :: cs, acc =>
    if pySpace c then
      if acc.isEmpty then splitWsAux cs [] else acc.reverse :: splitWsAux cs []
    else splitWsAux cs (c :: acc)

/-- Python `str.split()` on a list of characters. -/
def splitWs (xs : List Char) : List (List Char) :=
  splitWsAux xs []

/-- Python `' '.join(words)` on lists of characters. -/
def joinWords : List (List Char) → List Char
  | [] => []
  | [w] => w
  | w :: ws => w ++ ' ' :: joinWords ws

/-- Python `str.strip()` (with the default whitespace set). -/
def stripChars (xs : List Char) : List Char :=
  ((xs.dropWhile pySpace).reverse.dropWhile pySpace).reverse

/-- The character-level pipeline of `preprocess_arabic_text`
(arabert_search.py:47-59): diacritic removal, the three letter folds,
the non-Arabic cleanup, `' '.join(text.split())` and `.strip()`. -/
def preprocessList (xs : List Char) : List Char :=
  let t1 := xs.filter fun c => !(isDiacritic c)
  let t2 := t1.map alefFold
  let t3 := t2.map tehFold
  let t4 := t3.map yehFold
  let t5 := t4.map spaceify
  stripChars (joinWords (splitWs t5))

/-- `AraBERTSearchEngine.preprocess_arabic_text` (arabert_search.py:42-59):
`if not text: return ""`, then the pipeline. -/
def preprocess_arabic_text (text : String) : String :=
  if text = "" then "" else ⟨preprocessList text.data⟩

/-- The five substitution stages of the pipeline, before split/join/strip
(a definitional abbreviation of `preprocessList`'s prefix). -/
def foldStages (xs : List Char) : List Char :=
  ((((xs.filter fun c => !(isDiacritic c)).map alefFold).map tehFold).map yehFold).map spaceify

/-- Python `str.split()` on a `String`. -/
def pySplitStr (s : String) : List String :=
  (splitWs s.data).map fun w => ⟨w⟩

/-- The static synonym table from `AraBERTSearchEngine.__init__`
(arabert_search.py:19-40), keys unmodified. -/
def synonyms : List (String × List String) :=
  [ ("صلاة", ["صلوات", "صلاه", "الصلاة", "فريضة"]),
    ("سفر", ["سفار", "رحلة", "سفره", "مسافر"]),
    ("حج", ["حجة", "حجج", "الحج", "حاج"]),
    ("صوم", ["صيام", "صائم", "الصوم", "رمضان"]),
    ("زكاة", ["زكوات", "الزكاة", "صدقة"]),
    ("وضوء", ["طهارة", "تطهر", "الوضوء"]),
    ("قرآن", ["القرآن", "كتاب الله", "المصحف"]),
    ("سنة", ["سنن", "حديث", "نبوي"]),
    ("دعاء", ["أدعية", "ذكر", "دعوة"]),
    ("جنازة", ["موت", "وفاة", "دفن"]),
    ("نكاح", ["زواج", "عقد", "خطبة"]),
    ("طلاق", ["فسخ", "انفصال", "خلع"]),
    ("بيع", ["شراء", "تجارة", "معاملة"]),
    ("ربا", ["فائدة", "ريبة", "حرام"]),
    ("جهاد", ["قتال", "غزو", "مجاهد"]),
    ("علم", ["تعلم", "فقه", "معرفة"]),
    ("ذنب", ["معصية", "خطأ", "إثم"]),
    ("توبة", ["استغفار", "ندم", "رجوع"]),
    ("جنة", ["فردوس", "نعيم", "خلود"]),
    ("نار", ["عذاب", "جهنم", "عقاب"]) ]

/-- `word in self.synonyms` / `self.synonyms[word]` on the table. -/
def synLookup (w : String) : Option (List String) :=
  (synonyms.find? fun p => p.1 = w).map (·.2)

/-- Order-preserving de-duplication (`seen` set loop in `expand_query`). -/
def dedupSeen (seen : List String) : List String → List String
  | [] => []
  | x :: xs => if x ∈ seen then dedupSeen seen xs else x :: dedupSeen (x :: seen) xs

/-- `AraBERTSearchEngine.expand_query` (arabert_search.py:83-102):
preprocess, collect synonyms of each word, de-duplicate keeping order. -/
def expand_query (query : String) : List String :=
  let q := preprocess_arabic_text query
  let expanded_terms := q :: (pySplitStr q).flatMap fun w => (synLookup w).getD []
  dedupSeen [] expanded_terms

/-! ## Elasticsearch query composition (`arabert_search.py:104-235`)

Each clause mirrors one dict appended to `should_queries` in
`create_enhanced_query`; the numeric literals are the `boost` values of the
source. -/

/-- Clause 1, `match_phrase` with boost 5.0 (arabert_search.py:111-118). -/
def phraseClause (t : String) : JValue :=
  .obj [("match_phrase", .obj [("text", .obj [("query", .str t), ("boost", .num 5.0)])])]

/-- Clause 2, `match` on the original term with `operator: and`, boost 3.0
(arabert_search.py:121-129). -/
def matchAndClause (t : String) : JValue :=
  .obj [("match", .obj [("text", .obj
    [("query", .str t), ("boost", .num 3.0), ("operator", .str "and")])])]

/-- Clause 3, `fuzzy` with boost 2.0 (arabert_search.py:132-140). -/
def fuzzyClause (t : String) : JValue :=
  .obj [("fuzzy", .obj [("text", .obj
    [("value", .str t), ("fuzziness", .str "AUTO"), ("boost", .num 2.0)])])]

/-- Clause 4, one `match` per expanded synonym (arabert_search.py:143-152);
the boost is 2.5 for the first three synonyms and 1.5 afterwards. -/
def synonymMatchClause (term : String) (boost : ℚ) : JValue :=
  .obj [("match", .obj [("text", .obj [("query", .str term), ("boost", .num boost)])])]

/-- Clause 5, `multi_match` over `text^3`/`processed_text^2` with boost 2.8
(arabert_search.py:155-162). -/
def multiMatchClause (t : String) : JValue :=
  .obj [("multi_match", .obj
    [("query", .str t),
     ("fields", .arr [.str "text^3", .str "processed_text^2"]),
     ("type", .str "best_fields"),
     ("boost", .num 2.8)])]

/-- Clause 6, `wildcard` `*term*` with boost 1.2 (arabert_search.py:165-172). -/
def wildcardClause (t : String) : JValue :=
  .obj [("wildcard", .obj [("text", .obj
    [("value", .str ("*" ++ t ++ "*")), ("boost", .num 1.2)])])]

/-- Clause 7, `bool`/`must` over the words of a multi-word term with boost 2.2
(arabert_search.py:175-184). -/
def wordsBoolClause (t : String) : JValue :=
  .obj [("bool", .obj
    [("must", .arr ((pySplitStr t).map fun word =>
        .obj [("match", .obj [("text", .str word)])])),
     ("boost", .num 2.2)])]

/-- `AraBERTSearchEngine.create_enhanced_query` (arabert_search.py:104-191):
the clauses are appended in source order — phrase, all-words match, fuzzy,
the synonym matches (`enumerate(expanded_terms[1:], 1)` with boost
`2.5 if i <= 3 else 1.5`), `multi_match`, `wildcard`, and the word-level
`bool` clause only when `len(search_term.split()) > 1`. -/
def create_enhanced_query (search_term : String) : JValue :=
  let expanded_terms := expand_query search_term
  let should_queries :=
    [phraseClause search_term, matchAndClause search_term, fuzzyClause search_term]
    ++ (List.enumFrom 1 (expanded_terms.drop 1)).map
        (fun p => synonymMatchClause p.2 (if p.1 ≤ 3 then 2.5 else 1.5))
    ++ [multiMatchClause search_term, wildcardClause search_term]
    ++ (if 1 < (pySplitStr search_term).length then [wordsBoolClause search_term] else [])
  .obj [("bool", .obj
    [("should", .arr should_queries), ("minimum_should_match", .num 1)])]

/-- `AraBERTSearchEngine.create_semantic_query` (arabert_search.py:193-219).
A `numpy` query embedding is a list of rationals; `None` selects the
`knn` / `query_vector_builder` branch. -/
def create_semantic_query (search_term : String) (query_embedding : Option (List ℚ)) : JValue :=
  match query_embedding with
  | some v =>
    .obj [("script_score", .obj
      [("query", .obj [("match_all", .obj [])]),
       ("script", .obj
         [("source", .str "cosineSimilarity(params.query_vector, \x27text_embedding\x27) + 1.0"),
          ("params", .obj [("query_vector", .arr (v.map JValue.num))])])])]
  | none =>
    .obj [("knn", .obj
      [("field", .str "content"),
       ("query_vector_builder", .obj [("text_embedding", .obj [("text", .str search_term)])]),
       ("k", .num 10),
       ("num_candidates", .num 100)])]

/-- `AraBERTSearchEngine.create_hybrid_query` (arabert_search.py:221-235):
`bool`/`should` over the semantic query and the lexical query. -/
def create_hybrid_query (search_term : String) (query_embedding : Option (List ℚ)) : JValue :=
  .obj [("bool", .obj
    [("should", .arr [create_semantic_query search_term query_embedding,
                      create_enhanced_query search_term]),
     ("minimum_should_match", .num 1)])]

/-- The basic `match` query of `basic_search` / `api_search` (app.py:392-396). -/
def basicMatchQuery (t : String) : JValue :=
  .obj [("match", .obj [("text", .str t)])]

/-! ### Observers on composed queries (used only in the statements) -/

/-- Field lookup inside a JSON object. -/
def getField (body : JValue) (k : String) : Option JValue :=
  match body with
  | .obj kvs => (kvs.find? fun p => p.1 = k).map (·.2)
  | _ => none

/-- The `boost` value carried by a single `should` clause. -/
def clauseBoost (c : JValue) : Option JValue :=
  match c with
  | .obj [(k, body)] =>
    if k = "multi_match" || k = "bool" then getField body "boost"
    else
      match body with
      | .obj [(_, inner)] => getField inner "boost"
      | _ => none
  | _ => none

/-- The list of `should` clauses of a `bool` query. -/
def shouldClauses (q : JValue) : List JValue :=
  match q with
  | .obj (("bool", .obj (("should", .arr l) :: _)) :: _) => l
  | _ => []

def shouldLen (q : JValue) : Nat :=
  (shouldClauses q).length

/-! ## Python runtime values

`PyVal` models the dynamically typed arguments reaching `format_time`,
`preprocess_arabic_text` and the `size` request field. -/

inductive PyVal where
  | none
  | int (n : Int)
  | float (x : ℚ)
  | str (s : String)
  | list (l : List PyVal)

/-- Python truthiness (`bool(v)`). -/
def pyTruthy : PyVal → Bool
  | .none => false
  | .int n => n != 0
  | .float x => x != 0
  | .str s => s != ""
  | .list l => !l.isEmpty

/-- `isinstance(v, (int, float))`. -/
def isNumeric : PyVal → Bool
  | .int _ => true
  | .float _ => true
  | _ => false

/-- Python `int(float(v))` on a numeric value: truncation towards zero. -/
def pyToInt : PyVal → Int
  | .int n => n
  | .float x => if 0 ≤ x then ⌊x⌋ else ⌈x⌉
  | _ => 0

/-- `preprocess_arabic_text` under Python's dynamic typing: a falsy argument
returns `""` on the `if not text` guard; a truthy string runs the pipeline;
any truthy non-string reaches `re.sub`, which raises `TypeError`. -/
def preprocess_py (v : PyVal) : Except String String :=
  if !(pyTruthy v) then .ok ""
  else
    match v with
    | .str s => .ok (preprocess_arabic_text s)
    | _ => .error "TypeError"

/-! ## `format_time` (app_v2.py:10-19 and app3.py:8-17) -/

/-- Two-digit zero-padded rendering of a field of `time.gmtime`
(`strftime` `%M` / `%S`, values in `0..59`). -/
def pad2 (n : Nat) : String :=
  ⟨[Char.ofNat (48 + n / 10), Char.ofNat (48 + n % 10)]⟩

/-- `format_time`: falsy or non-numeric input gives `"00:00"`, otherwise
`time.strftime("%M:%S", time.gmtime(seconds))`; `gmtime` puts
`(seconds // 60) % 60` in `tm_min` and `seconds % 60` in `tm_sec`. -/
def format_time (v : PyVal) : String :=
  if !(pyTruthy v) || !(isNumeric v) then "00:00"
  else
    let seconds := pyToInt v
    pad2 ((seconds.fdiv 60).emod 60).toNat ++ ":" ++ pad2 (seconds.emod 60).toNat

/-! ## Size handling of the two endpoints (claim C7) -/

/-- app2.py:71-103: `size = data.get('size', 50)`;
`if not isinstance(size, int) or size < 1: size = 50`; the fetch then uses
`size=min(size, 1000)`. -/
def app2_effective_size (v : PyVal) : Int :=
  let size : Int :=
    match v with
    | .int n => if n < 1 then 50 else n
    | _ => 50
  min size 1000

/-- app.py:350-403: the `/search` endpoint takes `size = data.get('size', 50)`
and passes it straight to `es.search(..., size=min(size, 1000))`; no lower
bound or type check, and `min` between a non-number and `1000` raises
`TypeError`. -/
def app_py_effective_size (v : PyVal) : Except String PyVal :=
  match v with
  | .int n => .ok (.int (min n 1000))
  | .float x => .ok (.float (min x 1000))
  | _ => .error "TypeError"

/-! ## YouTube deep-link construction (app.py:410-418, app_v2.py:149-157)

Python `pat in s` and `s.split(pat)` on strings. -/

/-- Python `pat in s` (substring containment). -/
def containsSub (s pat : String) : Bool :=
  2 ≤ (s.splitOn pat).length

/-- The `youtube_link_with_time` computation shared by all endpoints:
extract a video id from `video_link` and append `&t=<start>s`. -/
def youtube_link_with_time (video_link : String) (start_time : Int) : String :=
  let video_id :=
    if containsSub video_link "youtube.com/watch?v=" then
      (((video_link.splitOn "v=").getD 1 "").splitOn "&").getD 0 ""
    else if containsSub video_link "youtu.be/" then
      ((((video_link.splitOn "youtu.be/").getLast?).getD "").splitOn "?").getD 0 ""
    else video_link
  "https://www.youtube.com/watch?v=" ++ video_id ++ "&t=" ++ toString start_time ++ "s"

/-! ## The `/search` endpoint of app.py (app.py:348-546)

Elasticsearch is the environment boundary: an `ES` record holds the
responses of `es.indices.exists`, `es.count` and `es.search`; any
Python exception is an `Except.error`.  `get_embedding` is likewise an
oracle value (`Except`), since its outcome depends on the model. -/

/-- One raw Elasticsearch hit (`hit['_source']` plus `hit['_score']`). -/
structure SrcHit where
  text : String
  start : Int
  endSec : Int
  video_link : String
  score : ℚ
deriving Repr, DecidableEq

/-- One formatted result entry (the dicts built at app.py:420-427). -/
structure ResultEntry where
  text : String
  start : Int
  endSec : Int
  video_link : String
  youtube_link_with_time : String
  score : ℚ
deriving Repr, DecidableEq

/-- The per-hit formatting shared by `basic_search`, `enhanced_search` and
`semantic_search` (`start_time = int(hit['_source']['start'])`). -/
def formatHit (h : SrcHit) : ResultEntry :=
  { text := h.text, start := h.start, endSec := h.endSec,
    video_link := h.video_link,
    youtube_link_with_time := youtube_link_with_time h.video_link h.start,
    score := h.score }

/-- The Elasticsearch service as seen by app.py. -/
structure ES where
  indicesExists : String → Bool
  count : String → JValue → Except String Nat
  searchQ : String → JValue → Int → Except String (List SrcHit)

/-- The `{'hits': ..., 'total': ...}` dict returned by the three search
helpers. -/
structure SearchRes where
  hits : List ResultEntry
  total : Nat
deriving Repr, DecidableEq

/-- `basic_search` (app.py:390-432): count and fetch both use the plain
`match` query. -/
def basic_search (es : ES) (search_term : String) (size : Int) : Except String SearchRes := do
  let query := basicMatchQuery search_term
  let total_count ← es.count "transcription" query
  let hits ← es.searchQ "transcription" query (min size 1000)
  return { hits := hits.map formatHit, total := total_count }

/-- `enhanced_search` (app.py:434-484): one enhanced query used for both
the count and the fetch, against the embeddings index when it exists. -/
def enhanced_search (es : ES) (search_term : String) (size : Int) : Except String SearchRes := do
  let query := create_enhanced_query search_term
  let index_name :=
    if es.indicesExists "transcription_with_embeddings" then "transcription_with_embeddings"
    else "transcription"
  let total_count ← es.count index_name query
  let hits ← es.searchQ index_name query (min size 1000)
  return { hits := hits.map formatHit, total := total_count }

/-- `semantic_search` (app.py:486-546): falls back to `enhanced_search` when
the embeddings index is missing; otherwise embeds the query, fetches with the
hybrid query but counts with the enhanced lexical query
(`basic_query = arabert_engine.create_enhanced_query(search_term)`,
app.py:503); any exception inside the `try` falls back to
`enhanced_search`. -/
def semantic_search (es : ES) (getEmbedding : Except String (List ℚ))
    (search_term : String) (size : Int) : Except String SearchRes :=
  if !(es.indicesExists "transcription_with_embeddings") then
    enhanced_search es search_term size
  else
    let attempt : Except String SearchRes := do
      let query_embedding ← getEmbedding
      let query := create_hybrid_query search_term (some query_embedding)
      let basic_query := create_enhanced_query search_term
      let total_count ← es.count "transcription_with_embeddings" basic_query
      let hits ← es.searchQ "transcription_with_embeddings" query (min size 1000)
      return { hits := hits.map formatHit, total := total_count }
    match attempt with
    | .ok r => .ok r
    | .error _ => enhanced_search es search_term size

/-- The JSON body and status code produced by the `/search` route. -/
structure Response where
  results : List ResultEntry
  total : Nat
  returned : Option Nat
  mode : Option String
  error : Option String
  status : Nat
deriving Repr, DecidableEq

/-- The `/search` route (app.py:348-388): dispatch on `mode`, return the
requested `mode` string on success, fall back to `basic_search` with mode
`basic_fallback` on an exception, and 500 only when that also fails. -/
def searchEndpoint (es : ES) (getEmbedding : Except String (List ℚ))
    (arabertAvailable : Bool) (search_term : String) (size : Int) (mode : String) : Response :=
  if search_term = "" then
    { results := [], total := 0, returned := none, mode := none, error := none, status := 200 }
  else
    let attempt : Except String SearchRes :=
      if mode = "enhanced" && arabertAvailable then enhanced_search es search_term size
      else if mode = "semantic" && arabertAvailable then
        semantic_search es getEmbedding search_term size
      else basic_search es search_term size
    match attempt with
    | .ok r =>
      { results := r.hits, total := r.total, returned := some r.hits.length,
        mode := some mode, error := none, status := 200 }
    | .error _ =>
      match basic_search es search_term size with
      | .ok r =>
        { results := r.hits, total := r.total, returned := some r.hits.length,
          mode := some "basic_fallback", error := none, status := 200 }
      | .error e2 =>
        { results := [], total := 0, returned := none, mode := none,
          error := some e2, status := 500 }

/-! ## The grouped `/search` route of app_v2.py (app_v2.py:60-176)

The initial vector hits and the second (`terms` on `group_id`) fetch are
the two Elasticsearch responses; the aggregation between them is pure. -/

/-- One initial vector hit: `_source.doc_id`, `_source.group_id`, `_score`.
Missing keys are `none` (Python `dict.get` default). -/
structure VHit where
  doc_id : Option String
  group_id : Option String
  score : ℚ
deriving Repr, DecidableEq

/-- One document of the second fetch, with the `src.get(...)` defaults of
app_v2.py:129-140 already applied (`doc_id` keeps its `None` default). -/
structure GDoc where
  doc_id : Option String
  group_id : Option String
  is_follow_up : Bool
  sequence : Int
  question : String
  answer : String
  start : Int
  endSec : Int
  video_link : String
deriving Repr, DecidableEq

/-- Truthiness of an optional string (`if doc_id:` / `if src.get('group_id'):`). -/
def optStrTruthy : Option String → Bool
  | Option.none => false
  | some s => s != ""

/-- The item dict built per fetched document (app_v2.py:129-140). -/
structure Item where
  doc_id : Option String
  is_follow_up : Bool
  sequence : Int
  question : String
  answer : String
  start : Int
  endSec : Int
  video_link : String
  is_match : Bool
  score : ℚ
deriving Repr, DecidableEq

/-- The formatted item emitted in a group (app_v2.py:158-169): `start` and
`end` are `format_time` strings, `sequence` is dropped. -/
structure OutItem where
  doc_id : Option String
  is_follow_up : Bool
  question : String
  answer : String
  start : String
  endSec : String
  video_link : String
  youtube_link_with_time : String
  is_match : Bool
  score : ℚ
deriving Repr, DecidableEq

/-- One `{'group_id': ..., 'items': ...}` result (app_v2.py:170). -/
structure GroupOut where
  group_id : String
  items : List OutItem
deriving Repr, DecidableEq

/-- `initial_scores.get(doc_id, 0)`: the scores dict is written in hit order
(later hits overwrite), keys are the truthy `doc_id`s. -/
def scoreLookup (initialHits : List VHit) : Option String → ℚ
  | Option.none => 0
  | some s =>
    match (initialHits.filter fun h => optStrTruthy h.doc_id && (h.doc_id == some s)).getLast? with
    | some h => h.score
    | Option.none => 0

/-- `matching_doc_ids` (membership in a Python set of strings). -/
def matchingDocIds (initialHits : List VHit) : List String :=
  (initialHits.filter fun h => optStrTruthy h.doc_id).filterMap (·.doc_id)

/-- `doc_id in matching_doc_ids` for an optional id. -/
def isMatchId (initialHits : List VHit) : Option String → Bool
  | Option.none => false
  | some s => s ∈ matchingDocIds initialHits

/-- The item built for one fetched document (app_v2.py:129-140). -/
def mkItem (initialHits : List VHit) (d : GDoc) : Item :=
  { doc_id := d.doc_id, is_follow_up := d.is_follow_up, sequence := d.sequence,
    question := d.question, answer := d.answer, start := d.start, endSec := d.endSec,
    video_link := d.video_link,
    is_match := isMatchId initialHits d.doc_id,
    score := scoreLookup initialHits d.doc_id }

/-- `groups.setdefault(gid, []).append(item)` on an insertion-ordered dict:
a new key goes to the end, an existing key keeps its position and its list
grows at the end. -/
def insertGroup (gs : List (String × List Item)) (gid : String) (it : Item) :
    List (String × List Item) :=
  match gs with
  | [] => [(gid, [it])]
  | (g, its) :: rest =>
    if g = gid then (g, its ++ [it]) :: rest else (g, its) :: insertGroup rest gid it

/-- The `groups` dict after the loop over the fetched documents
(app_v2.py:123-141); documents with a falsy `group_id` are skipped. -/
def buildGroups (initialHits : List VHit) (fetched : List GDoc) : List (String × List Item) :=
  fetched.foldl
    (fun gs d =>
      if optStrTruthy d.group_id then insertGroup gs (d.group_id.getD "") (mkItem initialHits d)
      else gs)
    []

/-- `sorted(items, key=lambda x: x.get('sequence', 0))`. -/
def sortBySequence (items : List Item) : List Item :=
  List.insertionSort (fun a b => a.sequence ≤ b.sequence) items

/-- The formatting step (app_v2.py:148-169). -/
def formatItem (it : Item) : OutItem :=
  let start_time := it.start
  let video_link := it.video_link
  { doc_id := it.doc_id, is_follow_up := it.is_follow_up, question := it.question,
    answer := it.answer,
    start := format_time (.int start_time), endSec := format_time (.int it.endSec),
    video_link := it.video_link,
    youtube_link_with_time := youtube_link_with_time video_link start_time,
    is_match := it.is_match, score := it.score }

/-- `group_ids` collected from the initial hits (app_v2.py:97-106); only the
order-insensitive content matters (it is a Python set). -/
def groupIdsOf (initialHits : List VHit) : List String :=
  (initialHits.filter fun h => optStrTruthy h.group_id).filterMap (·.group_id)

/-- The aggregation of app_v2.py:94-173, from the two Elasticsearch
responses to `(results, total, returned)`; an empty `group_ids` set returns
early with no results. -/
def appv2_search (initialHits : List VHit) (fetched : List GDoc) :
    List GroupOut × Nat × Nat :=
  if (groupIdsOf initialHits).isEmpty then ([], 0, 0)
  else
    let groups := buildGroups initialHits fetched
    let results := groups.map fun p =>
      { group_id := p.1, items := (sortBySequence p.2).map formatItem : GroupOut }
    (results, results.length, results.length)

/-- Modelled from the claim's words (not from the code): the order in which
distinct truthy `group_id`s are first encountered in the initial ranked
hits. -/
def firstSeenGroupOrder (initialHits : List VHit) : List String :=
  dedupSeen [] (groupIdsOf initialHits)

/-- The order in which distinct truthy `group_id`s first appear in the
fetched documents. -/
def fetchGroupOrder (fetched : List GDoc) : List String :=
  dedupSeen []
    ((fetched.filter fun d => optStrTruthy d.group_id).filterMap (·.group_id))

/-- The two sequence-comparison facts `List.sorted_insertionSort` needs for
`sortBySequence`. -/
instance : IsTotal Item fun a b => a.sequence ≤ b.sequence :=
  ⟨fun a b => le_total a.sequence b.sequence⟩

instance : IsTrans Item fun a b => a.sequence ≤ b.sequence :=
  ⟨fun _ _ _ => le_trans⟩

/-- A sample Elasticsearch oracle: every index exists, every count is 7,
every fetch returns no hits. -/
def esW : ES :=
  { indicesExists := fun _ => true,
    count := fun _ _ => .ok 7,
    searchQ := fun _ _ _ => .ok [] }

/-- A probing Elasticsearch oracle whose count answers with the number of
`should` clauses of the query it was given. -/
def esProbe : ES :=
  { indicesExists := fun _ => true,
    count := fun _ q => .ok (shouldLen q),
    searchQ := fun _ _ _ => .ok [] }

/-- Sample initial vector hits: group `g2` is encountered before `g1`. -/
def sampleInitial : List VHit :=
  [{ doc_id := some "d2", group_id := some "g2", score := 2 },
   { doc_id := some "d1", group_id := some "g1", score := 1 }]

/-- Sample fetched documents, sorted by `(group_id, sequence)` as the second
Elasticsearch query returns them: `g1` before `g2`. -/
def sampleFetched : List GDoc :=
  [{ doc_id := some "d1", group_id := some "g1", is_follow_up := false, sequence := 1,
     question := "q1", answer := "a1", start := 0, endSec := 0, video_link := "" },
   { doc_id := some "d2", group_id := some "g2", is_follow_up := false, sequence := 1,
     question := "q2", answer := "a2", start := 0, endSec := 0, video_link := "" }]

/-- The truthy `group_id` values of the fetched documents, in fetch order. -/
def truthyGids (fetched : List GDoc) : List String :=
  (fetched.filter fun d => optStrTruthy d.group_id).filterMap (·.group_id)

/-- Characters that every normalisation stage leaves unchanged: the output
alphabet of `preprocess_arabic_text`. -/
def cleanChar (c : Char) : Prop :=
  isDiacritic c = false ∧ alefFold c = c ∧ tehFold c = c ∧ yehFold c = c ∧
    (isArabicChar c || pySpace c) = true

/-! ### Structural facts about `splitWs` / `joinWords` / `stripChars` -/

theorem splitWsAux_mem (xs : List Char) :
    ∀ acc : List Char, (∀ c ∈ acc, pySpace c = false) →
      ∀ w ∈ splitWsAux xs acc, w ≠ [] ∧ ∀ c ∈ w, pySpace c = false ∧ (c ∈ xs ∨ c ∈ acc) := by
  induction xs with
  | nil =>
    intro acc hacc w hw
    cases acc with
    | nil => simp [splitWsAux] at hw
    | cons a as =>
      simp only [splitWsAux, List.isEmpty_cons, List.mem_singleton, if_neg Bool.false_ne_true] at hw
      subst hw
      refine ⟨by simp, fun c hc => ?_⟩
      rw [List.mem_reverse] at hc
      exact ⟨hacc c hc, Or.inr hc⟩
  | cons x xs ih =>
    intro acc hacc w hw
    by_cases hx : pySpace x
    · cases acc with
      | nil =>
        simp only [splitWsAux, hx, if_true, List.isEmpty_nil] at hw
        obtain ⟨hne, hprop⟩ := ih [] (by simp) w hw
        exact ⟨hne, fun c hc => ⟨(hprop c hc).1, Or.inl (List.mem_cons_of_mem _ ((hprop c hc).2.resolve_right (by simp)))⟩⟩
      | cons a as =>
        simp only [splitWsAux, hx, if_true, List.isEmpty_cons, if_neg Bool.false_ne_true,
          List.mem_cons] at hw
        rcases hw with hw | hw
        · subst hw
          refine ⟨by simp, fun c hc => ?_⟩
          rw [List.mem_reverse] at hc
          exact ⟨hacc c hc, Or.inr hc⟩
        · obtain ⟨hne, hprop⟩ := ih [] (by simp) w hw
          exact ⟨hne, fun c hc => ⟨(hprop c hc).1, Or.inl (List.mem_cons_of_mem _ ((hprop c hc).2.resolve_right (by simp)))⟩⟩
    · simp only [splitWsAux, hx, if_false] at hw
      have hacc' : ∀ c ∈ x :: acc, pySpace c = false := by
        intro c hc
        rcases List.mem_cons.mp hc with h | h
        · subst h; exact Bool.eq_false_iff.mpr hx
        · exact hacc c h
      obtain ⟨hne, hprop⟩ := ih (x :: acc) hacc' w hw
      refine ⟨hne, fun c hc => ⟨(hprop c hc).1, ?_⟩⟩
      rcases (hprop c hc).2 with h | h
      · exact Or.inl (List.mem_cons_of_mem _ h)
      · rcases List.mem_cons.mp h with h | h
        · exact Or.inl (by simp [h])
        · exact Or.inr h

theorem splitWs_mem (xs : List Char) :
    ∀ w ∈ splitWs xs, w ≠ [] ∧ ∀ c ∈ w, pySpace c = false ∧ c ∈ xs := by
  intro w hw
  obtain ⟨hne, hprop⟩ := splitWsAux_mem xs [] (by simp) w hw
  exact ⟨hne, fun c hc => ⟨(hprop c hc).1, (hprop c hc).2.resolve_right (by simp)⟩⟩

theorem splitWsAux_word_prefix :
    ∀ (w rest acc : List Char), (∀ c ∈ w, pySpace c = false) →
      splitWsAux (w ++ rest) acc = splitWsAux rest (w.reverse ++ acc) := by
  intro w
  induction w with
  | nil => intro rest acc _; simp
  | cons c w ih =>
    intro rest acc h
    have hc : pySpace c = false := h c (by simp)
    have hrec := ih rest (c :: acc) (fun d hd => h d (List.mem_cons_of_mem _ hd))
    simp only [List.cons_append, splitWsAux, hc, if_neg Bool.false_ne_true,
      List.reverse_cons, List.append_assoc, List.singleton_append, List.nil_append]
    exact hrec

theorem splitWsAux_space_cons (c : Char) (rest : List Char) (a : Char) (as : List Char)
    (hc : pySpace c = true) :
    splitWsAux (c :: rest) (a :: as) = (a :: as).reverse :: splitWsAux rest [] := by
  simp [splitWsAux, hc]

theorem splitWs_joinWords :
    ∀ ws : List (List Char), (∀ w ∈ ws, w ≠ [] ∧ ∀ c ∈ w, pySpace c = false) →
      splitWs (joinWords ws) = ws := by
  intro ws
  induction ws with
  | nil => intro _; rfl
  | cons w ws ih =>
    intro h
    obtain ⟨hwne, hwc⟩ := h w (by simp)
    cases ws with
    | nil =>
      show splitWsAux (joinWords [w]) [] = [w]
      have : joinWords [w] = w ++ [] := by simp [joinWords]
      rw [this, splitWsAux_word_prefix w [] [] hwc]
      cases hrev : w.reverse with
      | nil => exact absurd (by simpa using congrArg List.reverse hrev) hwne
      | cons a as =>
        rw [List.append_nil]
        show (if (a :: as).isEmpty then [] else [(a :: as).reverse]) = [w]
        rw [if_neg (by simp), ← hrev, List.reverse_reverse]
    | cons v vs =>
      have hjoin : joinWords (w :: v :: vs) = w ++ ' ' :: joinWords (v :: vs) := rfl
      show splitWsAux (joinWords (w :: v :: vs)) [] = w :: v :: vs
      rw [hjoin, splitWsAux_word_prefix w _ [] hwc]
      cases hrev : w.reverse with
      | nil => exact absurd (by simpa using congrArg List.reverse hrev) hwne
      | cons a as =>
        rw [List.append_nil,
          splitWsAux_space_cons ' ' (joinWords (v :: vs)) a as (by decide), ← hrev]
        simp only [List.reverse_reverse]
        exact congrArg (w :: ·) (ih fun u hu => h u (List.mem_cons_of_mem _ hu))

theorem mem_joinWords {c : Char} :
    ∀ {ws : List (List Char)}, c ∈ joinWords ws → (∃ w ∈ ws, c ∈ w) ∨ c = ' ' := by
  intro ws
  induction ws with
  | nil => intro h; simp [joinWords] at h
  | cons w ws ih =>
    intro h
    cases ws with
    | nil =>
      simp only [joinWords] at h
      exact Or.inl ⟨w, by simp, h⟩
    | cons v vs =>
      have : c ∈ w ++ ' ' :: joinWords (v :: vs) := h
      rcases List.mem_append.mp this with h' | h'
      · exact Or.inl ⟨w, by simp, h'⟩
      · rcases List.mem_cons.mp h' with h'' | h''
        · exact Or.inr h''
        · rcases ih h'' with ⟨u, hu, hcu⟩ | h3
          · exact Or.inl ⟨u, List.mem_cons_of_mem _ hu, hcu⟩
          · exact Or.inr h3

theorem joinWords_concat :
    ∀ ws : List (List Char), (∀ w ∈ ws, w ≠ [] ∧ ∀ c ∈ w, pySpace c = false) →
      ws = [] ∨ ∃ (l : List Char) (c : Char), joinWords ws = l ++ [c] ∧ pySpace c = false := by
  intro ws
  induction ws with
  | nil => intro _; exact Or.inl rfl
  | cons w ws ih =>
    intro h
    obtain ⟨hwne, hwc⟩ := h w (by simp)
    refine Or.inr ?_
    cases ws with
    | nil =>
      rcases List.eq_nil_or_concat w with hnil | ⟨l, c, hlc⟩
      · exact absurd hnil hwne
      · exact ⟨l, c, by simp [joinWords, hlc], hwc c (by simp [hlc])⟩
    | cons v vs =>
      rcases ih (fun u hu => h u (List.mem_cons_of_mem _ hu)) with hnil | ⟨l, c, hjoin, hc⟩
      · exact absurd hnil (by simp)
      · refine ⟨w ++ ' ' :: l, c, ?_, hc⟩
        show w ++ ' ' :: joinWords (v :: vs) = (w ++ ' ' :: l) ++ [c]
        rw [hjoin]
        simp

theorem stripChars_joinWords
    (ws : List (List Char)) (h : ∀ w ∈ ws, w ≠ [] ∧ ∀ c ∈ w, pySpace c = false) :
    stripChars (joinWords ws) = joinWords ws := by
  cases ws with
  | nil => rfl
  | cons w ws =>
    obtain ⟨hwne, hwc⟩ := h w (by simp)
    rcases joinWords_concat (w :: ws) h with hnil | ⟨l, c, hjoin, hc⟩
    · exact absurd hnil (by simp)
    · have hhead : ∃ (a : Char) (t : List Char), joinWords (w :: ws) = a :: t ∧ pySpace a = false := by
        cases hw : w with
        | nil => exact absurd hw hwne
        | cons a t =>
          cases ws with
          | nil => exact ⟨a, t, by simp [joinWords, hw], hwc a (by simp [hw])⟩
          | cons v vs =>
            exact ⟨a, t ++ ' ' :: joinWords (v :: vs), by simp [joinWords, hw], hwc a (by simp [hw])⟩
      obtain ⟨a, t, hat, ha⟩ := hhead
      unfold stripChars
      rw [hat, List.dropWhile_cons, if_neg (by simp [ha]), ← hat, hjoin]
      rw [List.reverse_append, List.reverse_singleton, List.singleton_append,
        List.dropWhile_cons, if_neg (by simp [hc])]
      simp


/-! ### The output alphabet of `preprocess_arabic_text` and idempotence -/

theorem map_id_of_fixed {α : Type} {l : List α} {f : α → α} (h : ∀ c ∈ l, f c = c) :
    l.map f = l := by
  induction l with
  | nil => rfl
  | cons a t ih =>
    rw [List.map_cons, h a (by simp), ih fun c hc => h c (List.mem_cons_of_mem _ hc)]

theorem clean_after_alef (c : Char) (h : isDiacritic c = false) :
    isDiacritic (alefFold c) = false ∧ alefFold (alefFold c) = alefFold c := by
  by_cases h1 : c = 'أ'
  · subst h1; exact ⟨by decide, by decide⟩
  · by_cases h2 : c = 'إ'
    · subst h2; exact ⟨by decide, by decide⟩
    · by_cases h3 : c = 'آ'
      · subst h3; exact ⟨by decide, by decide⟩
      · have hfc : alefFold c = c := by
          unfold alefFold
          rw [if_neg (by simp [h1, h2, h3])]
        rw [hfc]; exact ⟨h, hfc⟩

theorem clean_after_teh (c : Char) (h1 : isDiacritic c = false) (h2 : alefFold c = c) :
    isDiacritic (tehFold c) = false ∧ alefFold (tehFold c) = tehFold c ∧
      tehFold (tehFold c) = tehFold c := by
  by_cases hc : c = 'ة'
  · subst hc; exact ⟨by decide, by decide, by decide⟩
  · have hfc : tehFold c = c := by
      unfold tehFold
      rw [if_neg (by simp [hc])]
    rw [hfc]; exact ⟨h1, h2, hfc⟩

theorem clean_after_yeh (c : Char) (h1 : isDiacritic c = false) (h2 : alefFold c = c)
    (h3 : tehFold c = c) :
    isDiacritic (yehFold c) = false ∧ alefFold (yehFold c) = yehFold c ∧
      tehFold (yehFold c) = yehFold c ∧ yehFold (yehFold c) = yehFold c := by
  by_cases hc : c = 'ي'
  · subst hc; exact ⟨by decide, by decide, by decide, by decide⟩
  · have hfc : yehFold c = c := by
      unfold yehFold
      rw [if_neg (by simp [hc])]
    rw [hfc]; exact ⟨h1, h2, h3, hfc⟩

theorem clean_after_spaceify (c : Char) (h1 : isDiacritic c = false) (h2 : alefFold c = c)
    (h3 : tehFold c = c) (h4 : yehFold c = c) : cleanChar (spaceify c) := by
  by_cases hc : (isArabicChar c || pySpace c) = true
  · have hfc : spaceify c = c := by
      unfold spaceify
      rw [if_pos hc]
    rw [hfc]; exact ⟨h1, h2, h3, h4, hc⟩
  · have hfc : spaceify c = ' ' := by
      unfold spaceify
      rw [if_neg hc]
    rw [hfc]; exact ⟨by decide, by decide, by decide, by decide, by decide⟩

theorem foldStages_clean (xs : List Char) : ∀ c ∈ foldStages xs, cleanChar c := by
  intro c hc
  unfold foldStages at hc
  rcases List.mem_map.mp hc with ⟨d4, hd4, rfl⟩
  rcases List.mem_map.mp hd4 with ⟨d3, hd3, rfl⟩
  rcases List.mem_map.mp hd3 with ⟨d2, hd2, rfl⟩
  rcases List.mem_map.mp hd2 with ⟨d1, hd1, rfl⟩
  have p1 : isDiacritic d1 = false := by
    have := (List.mem_filter.mp hd1).2
    simpa using this
  have q1 := clean_after_alef d1 p1
  have q2 := clean_after_teh _ q1.1 q1.2
  have q3 := clean_after_yeh _ q2.1 q2.2.1 q2.2.2
  exact clean_after_spaceify _ q3.1 q3.2.1 q3.2.2.1 q3.2.2.2

theorem splitWs_words_ok (xs : List Char) :
    ∀ w ∈ splitWs xs, w ≠ [] ∧ ∀ c ∈ w, pySpace c = false := by
  intro w hw
  obtain ⟨hne, hp⟩ := splitWs_mem xs w hw
  exact ⟨hne, fun c hc => (hp c hc).1⟩

theorem preprocessList_join (xs : List Char) :
    preprocessList xs = joinWords (splitWs (foldStages xs)) := by
  show stripChars (joinWords (splitWs (foldStages xs))) = joinWords (splitWs (foldStages xs))
  exact stripChars_joinWords _ (splitWs_words_ok _)

theorem preprocessList_chars_clean (xs : List Char) :
    ∀ c ∈ preprocessList xs, cleanChar c := by
  rw [preprocessList_join]
  intro c hc
  rcases mem_joinWords hc with ⟨w, hw, hcw⟩ | hsp
  · exact foldStages_clean xs c ((splitWs_mem (foldStages xs) w hw).2 c hcw).2
  · subst hsp; exact ⟨by decide, by decide, by decide, by decide, by decide⟩

theorem foldStages_id_of_clean (xs : List Char) (h : ∀ c ∈ xs, cleanChar c) :
    foldStages xs = xs := by
  unfold foldStages
  have h1 : xs.filter (fun c => !(isDiacritic c)) = xs :=
    List.filter_eq_self.mpr fun c hc => by simp [(h c hc).1]
  rw [h1]
  rw [map_id_of_fixed fun c hc => (h c hc).2.1]
  rw [map_id_of_fixed fun c hc => (h c hc).2.2.1]
  rw [map_id_of_fixed fun c hc => (h c hc).2.2.2.1]
  refine map_id_of_fixed fun c hc => ?_
  unfold spaceify
  rw [if_pos (h c hc).2.2.2.2]

theorem preprocessList_idem (xs : List Char) :
    preprocessList (preprocessList xs) = preprocessList xs := by
  have hclean := preprocessList_chars_clean xs
  rw [preprocessList_join xs] at hclean ⊢
  rw [preprocessList_join (joinWords (splitWs (foldStages xs)))]
  rw [foldStages_id_of_clean _ hclean]
  rw [splitWs_joinWords _ (splitWs_words_ok _)]

/-! ### Helper lemmas for the grouped aggregator and query sizes -/

theorem dedupSeen_congr (l : List String) :
    ∀ seen1 seen2 : List String, (∀ x, x ∈ seen1 ↔ x ∈ seen2) →
      dedupSeen seen1 l = dedupSeen seen2 l := by
  induction l with
  | nil => intro _ _ _; rfl
  | cons x xs ih =>
    intro seen1 seen2 h
    by_cases hx : x ∈ seen1
    · rw [dedupSeen, dedupSeen, if_pos hx, if_pos ((h x).mp hx)]
      exact ih seen1 seen2 h
    · rw [dedupSeen, dedupSeen, if_neg hx, if_neg (fun hh => hx ((h x).mpr hh))]
      refine congrArg (x :: ·) (ih _ _ fun y => ?_)
      simp only [List.mem_cons]
      exact or_congr Iff.rfl (h y)

theorem dedupSeen_nodup (l : List String) :
    ∀ seen : List String, (dedupSeen seen l).Nodup ∧ ∀ x ∈ dedupSeen seen l, x ∉ seen := by
  induction l with
  | nil => intro seen; exact ⟨List.nodup_nil, by simp [dedupSeen]⟩
  | cons x xs ih =>
    intro seen
    by_cases hx : x ∈ seen
    · rw [dedupSeen, if_pos hx]; exact ih seen
    · rw [dedupSeen, if_neg hx]
      obtain ⟨hnd, hnotin⟩ := ih (x :: seen)
      refine ⟨List.nodup_cons.mpr ⟨fun hmem => ?_, hnd⟩, fun y hy => ?_⟩
      · exact hnotin x hmem (by simp)
      · rcases List.mem_cons.mp hy with rfl | hy'
        · exact hx
        · exact fun hh => hnotin y hy' (List.mem_cons_of_mem _ hh)

theorem insertGroup_keys (gid : String) (it : Item) :
    ∀ gs : List (String × List Item),
      (insertGroup gs gid it).map (·.1)
        = if gid ∈ gs.map (·.1) then gs.map (·.1) else gs.map (·.1) ++ [gid] := by
  intro gs
  induction gs with
  | nil => simp [insertGroup]
  | cons p rest ih =>
    obtain ⟨g, its⟩ := p
    by_cases hg : g = gid
    · subst hg
      rw [insertGroup, if_pos rfl]
      simp
    · rw [insertGroup, if_neg hg]
      by_cases hmem : gid ∈ rest.map (·.1)
      · have : gid ∈ ((g, its) :: rest).map (·.1) := by simp [hmem]
        rw [if_pos this]
        simp [ih, hmem]
      · have : gid ∉ ((g, its) :: rest).map (·.1) := by
          simp only [List.map_cons, List.mem_cons]
          rintro (h | h)
          · exact hg h.symm
          · exact hmem h
        rw [if_neg this]
        simp [ih, hmem]

theorem buildGroups_keys_general (initialHits : List VHit) :
    ∀ (fetched : List GDoc) (gs : List (String × List Item)),
      (fetched.foldl
          (fun gs d =>
            if optStrTruthy d.group_id then
              insertGroup gs (d.group_id.getD "") (mkItem initialHits d)
            else gs)
          gs).map (·.1)
        = gs.map (·.1) ++ dedupSeen (gs.map (·.1)) (truthyGids fetched) := by
  intro fetched
  induction fetched with
  | nil => intro gs; simp [truthyGids, dedupSeen]
  | cons d rest ih =>
    intro gs
    by_cases hd : optStrTruthy d.group_id
    · obtain ⟨s, hs⟩ : ∃ s, d.group_id = some s := by
        cases hgid : d.group_id with
        | none => rw [hgid] at hd; exact absurd hd (by decide)
        | some s => exact ⟨s, rfl⟩
      have hgid_val : d.group_id.getD "" = s := by rw [hs]; rfl
      have hstruthy : optStrTruthy (some s) = true := by rw [← hs]; exact hd
      have htg : truthyGids (d :: rest) = s :: truthyGids rest := by
        simp only [truthyGids, List.filter_cons, hs, hstruthy, if_true, List.filterMap_cons]
      rw [List.foldl_cons, if_pos hd, ih, insertGroup_keys, hgid_val, htg]
      by_cases hmem : s ∈ gs.map (·.1)
      · rw [if_pos hmem, dedupSeen, if_pos hmem]
      · rw [if_neg hmem, dedupSeen, if_neg hmem, List.append_assoc, List.singleton_append]
        refine congrArg (gs.map (·.1) ++ s :: ·) ?_
        refine dedupSeen_congr _ _ _ fun y => ?_
        simp [List.mem_append, List.mem_cons, or_comm]
    · have htg : truthyGids (d :: rest) = truthyGids rest := by
        simp [truthyGids, List.filter_cons, hd]
      rw [List.foldl_cons, if_neg hd, ih, htg]

theorem sortBySequence_sorted (items : List Item) :
    List.Sorted (fun a b => a.sequence ≤ b.sequence) (sortBySequence items) :=
  List.sorted_insertionSort _ items

theorem shouldLen_enhanced_ge (t : String) : 5 ≤ shouldLen (create_enhanced_query t) := by
  by_cases h : 1 < (pySplitStr t).length <;>
    simp [shouldLen, shouldClauses, create_enhanced_query, h, List.length_append]

theorem shouldLen_hybrid (t : String) (e : Option (List ℚ)) :
    shouldLen (create_hybrid_query t e) = 2 := rfl

/-! ## Claim theorems -/

/-- C9: text normalisation is idempotent — for every string `x`,
`preprocess_arabic_text (preprocess_arabic_text x) = preprocess_arabic_text x`. -/
theorem preprocess_idempotent (x : String) :
    preprocess_arabic_text (preprocess_arabic_text x) = preprocess_arabic_text x := by
  by_cases hx : x = ""
  · subst hx; rfl
  · have h1 : preprocess_arabic_text x = ⟨preprocessList x.data⟩ := if_neg hx
    rw [h1]
    by_cases hy : (⟨preprocessList x.data⟩ : String) = ""
    · rw [hy]; rfl
    · have h2 : preprocess_arabic_text ⟨preprocessList x.data⟩ =
          ⟨preprocessList (preprocessList x.data)⟩ := if_neg hy
      rw [h2]
      exact congrArg String.mk (preprocessList_idem x.data)

/-- C5 (amended): the time formatter maps 0, 65 and `None` to `"00:00"`,
`"01:05"` and `"00:00"` as claimed, but 3661 to `"01:01"`, because
`strftime("%M:%S", gmtime(s))` wraps the minutes at the hour. -/
theorem format_time_values :
    format_time (.int 0) = "00:00" ∧ format_time (.int 65) = "01:05" ∧
      format_time .none = "00:00" ∧ format_time (.int 3661) = "01:01" :=
  ⟨rfl, rfl, rfl, rfl⟩

/-- C5 counterexample: `format_time 3661` is `"01:01"`, not the claimed
`"61:01"`. -/
theorem format_time_3661_wraps :
    format_time (.int 3661) = "01:01" ∧ "01:01" ≠ "61:01" :=
  ⟨rfl, by decide⟩

/-- C8 (amended): under Python's dynamic typing, every falsy argument yields
`""` and every string argument succeeds, but a truthy non-string argument
raises `TypeError` inside `re.sub` — the normaliser is total on strings,
not on all values. -/
theorem preprocess_py_on_types (v : PyVal) :
    (pyTruthy v = false → preprocess_py v = .ok "") ∧
    (∀ s, preprocess_py (.str s) = .ok (preprocess_arabic_text s)) ∧
    (pyTruthy v = true → (∀ s, v ≠ .str s) → preprocess_py v = .error "TypeError") := by
  refine ⟨fun hf => ?_, fun s => ?_, fun ht hns => ?_⟩
  · simp [preprocess_py, hf]
  · by_cases hs : s = ""
    · subst hs; rfl
    · simp [preprocess_py, pyTruthy, hs]
  · cases v with
    | str s => exact absurd rfl (hns s)
    | none => exact absurd ht (by decide)
    | int n => simp [preprocess_py, ht]
    | float x => simp [preprocess_py, ht]
    | list l => simp [preprocess_py, ht]

/-- C8 witness: the integer 5 is truthy and not a string, and
`preprocess_py` raises `TypeError` on it. -/
theorem preprocess_py_on_types_witness :
    pyTruthy (.int 5) = true ∧ preprocess_py (.int 5) = .error "TypeError" :=
  ⟨rfl, (preprocess_py_on_types (.int 5)).2.2 rfl fun _ h => PyVal.noConfusion h⟩

/-- C8 counterexample: on the truthy non-text input 5 the normaliser raises
(`TypeError` from `re.sub`) instead of returning the empty string. -/
theorem preprocess_py_raises_on_int :
    preprocess_py (.int 5) = .error "TypeError" ∧
      preprocess_py (.int 5) ≠ .ok "" :=
  ⟨rfl, fun h => Except.noConfusion h⟩

/-- C7 (amended): app2.py's endpoint clamps as claimed — 0, -5 and a
non-numeric size fall back to the default 50, 5000 is capped at 1000, and
every effective size lies in `[1, 1000]`; app.py's endpoint instead passes
the size through with only the upper cap `min(size, 1000)`. -/
theorem size_clamping_by_endpoint (v : PyVal) (n : Int) :
    app2_effective_size (.int 0) = 50 ∧ app2_effective_size (.int (-5)) = 50 ∧
    app2_effective_size (.str "ten") = 50 ∧ app2_effective_size (.int 5000) = 1000 ∧
    1 ≤ app2_effective_size v ∧ app2_effective_size v ≤ 1000 ∧
    app_py_effective_size (.int n) = .ok (.int (min n 1000)) := by
  have hb : ∀ w : PyVal, 1 ≤ app2_effective_size w ∧ app2_effective_size w ≤ 1000 := by
    intro w
    cases w with
    | int m =>
      show 1 ≤ min (if m < 1 then 50 else m) 1000 ∧ min (if m < 1 then 50 else m) 1000 ≤ 1000
      by_cases h : m < 1
      · rw [if_pos h]; norm_num
      · rw [if_neg h]
        exact ⟨le_min (by omega) (by norm_num), min_le_right _ _⟩
    | none => exact ⟨by decide, by decide⟩
    | float x =>
      exact ⟨(by decide : (1 : Int) ≤ min 50 1000), (by decide : min (50 : Int) 1000 ≤ 1000)⟩
    | str s =>
      exact ⟨(by decide : (1 : Int) ≤ min 50 1000), (by decide : min (50 : Int) 1000 ≤ 1000)⟩
    | list l =>
      exact ⟨(by decide : (1 : Int) ≤ min 50 1000), (by decide : min (50 : Int) 1000 ≤ 1000)⟩
  exact ⟨rfl, rfl, rfl, rfl, (hb v).1, (hb v).2, rfl⟩

/-- C7 counterexample: app.py's `/search` passes requested size 0 through
(`min(0, 1000) = 0`), it does not substitute the default 50. -/
theorem apppy_size_zero_not_defaulted :
    app_py_effective_size (.int 0) = .ok (.int 0) ∧
      app_py_effective_size (.int 0) ≠ .ok (.int 50) := by
  refine ⟨rfl, fun h => ?_⟩
  have h0 : PyVal.int 0 = PyVal.int 50 := by
    have := h
    rw [show app_py_effective_size (.int 0) = .ok (.int 0) from rfl] at this
    exact Except.ok.inj this
  have : (0 : Int) = 50 := PyVal.int.inj h0
  norm_num at this

/-- C10: the synonym table keys that contain a letter rewritten by the
normaliser (`صلاة`, `زكاة`, `سنة`, `جنة`, `توبة`, `جنازة`, `قرآن`, `بيع`)
can never equal a word of a normalised query, so their entries are
unreachable from `expand_query`; in particular `expand_query "صلاة"`
returns exactly one element. -/
theorem synonym_keys_unreachable :
    (∀ q w, w ∈ pySplitStr (preprocess_arabic_text q) →
        w ∉ (["صلاة", "زكاة", "سنة", "جنة", "توبة", "جنازة", "قرآن", "بيع"] : List String)) ∧
    (∀ k ∈ (["صلاة", "زكاة", "سنة", "جنة", "توبة", "جنازة", "قرآن", "بيع"] : List String),
        synLookup k ≠ Option.none) ∧
    expand_query "صلاة" = ["صلاه"] := by
  refine ⟨fun q w hw hmem => ?_, by decide, rfl⟩
  have hchars : ∀ c ∈ w.data, cleanChar c := by
    by_cases hq : q = ""
    · subst hq
      have : pySplitStr (preprocess_arabic_text "") = [] := rfl
      rw [this] at hw
      exact absurd hw (List.not_mem_nil w)
    · have h1 : preprocess_arabic_text q = ⟨preprocessList q.data⟩ := if_neg hq
      rw [h1] at hw
      obtain ⟨wl, hwl, rfl⟩ := List.mem_map.mp hw
      intro c hc
      exact preprocessList_chars_clean q.data c
        (((splitWs_mem (preprocessList q.data) wl hwl).2 c hc).2)
  have hteh : ∀ c ∈ w.data, c ≠ 'ة' := by
    intro c hc h
    subst h
    exact absurd (hchars _ hc).2.2.1 (by decide)
  have halef : ∀ c ∈ w.data, c ≠ 'آ' := by
    intro c hc h
    subst h
    exact absurd (hchars _ hc).2.1 (by decide)
  have hyeh : ∀ c ∈ w.data, c ≠ 'ي' := by
    intro c hc h
    subst h
    exact absurd (hchars _ hc).2.2.2.1 (by decide)
  simp only [List.mem_cons, List.not_mem_nil, or_false] at hmem
  rcases hmem with rfl | rfl | rfl | rfl | rfl | rfl | rfl | rfl
  · exact hteh 'ة' (by decide) rfl
  · exact hteh 'ة' (by decide) rfl
  · exact hteh 'ة' (by decide) rfl
  · exact hteh 'ة' (by decide) rfl
  · exact hteh 'ة' (by decide) rfl
  · exact hteh 'ة' (by decide) rfl
  · exact halef 'آ' (by decide) rfl
  · exact hyeh 'ي' (by decide) rfl

/-- C10 witness: the normalised query `"صلاة"` splits into the single word
`"صلاه"`, which is none of the unreachable keys. -/
theorem synonym_keys_unreachable_witness :
    ("صلاه" ∈ pySplitStr (preprocess_arabic_text "صلاة")) ∧
      "صلاه" ∉ (["صلاة", "زكاة", "سنة", "جنة", "توبة", "جنازة", "قرآن", "بيع"] : List String) :=
  ⟨by decide, synonym_keys_unreachable.1 "صلاة" "صلاه" (by decide)⟩

/-- C1 (amended): for every term, `create_enhanced_query` assembles the
clauses with boosts phrase 5.0, all-words 3.0, fuzzy 2.0, first-three
synonyms 2.5 then 1.5, cross-field 2.8 and wildcard 1.2, and the actual
weight ordering is phrase > all-words > cross-field > first-3-synonyms >
fuzzy > overflow-synonyms ≥ wildcard — the cross-field weight sits above
the synonym weights, not below them. -/
theorem enhancedQuery_boost_order_actual (t : String) :
    shouldClauses (create_enhanced_query t)
      = [phraseClause t, matchAndClause t, fuzzyClause t]
        ++ (List.enumFrom 1 ((expand_query t).drop 1)).map
            (fun p => synonymMatchClause p.2 (if p.1 ≤ 3 then 2.5 else 1.5))
        ++ [multiMatchClause t, wildcardClause t]
        ++ (if 1 < (pySplitStr t).length then [wordsBoolClause t] else []) ∧
    clauseBoost (phraseClause t) = some (.num 5.0) ∧
    clauseBoost (matchAndClause t) = some (.num 3.0) ∧
    clauseBoost (multiMatchClause t) = some (.num 2.8) ∧
    (∀ term b, clauseBoost (synonymMatchClause term b) = some (.num b)) ∧
    clauseBoost (fuzzyClause t) = some (.num 2.0) ∧
    clauseBoost (wildcardClause t) = some (.num 1.2) ∧
    ((5.0 : ℚ) > 3.0 ∧ (3.0 : ℚ) > 2.8 ∧ (2.8 : ℚ) > 2.5 ∧ (2.5 : ℚ) > 2.0 ∧
      (2.0 : ℚ) > 1.5 ∧ (1.5 : ℚ) ≥ 1.2) := by
  refine ⟨rfl, rfl, rfl, rfl, fun term b => rfl, rfl, rfl, ?_⟩
  norm_num

/-- C1 counterexample: on the term `"صوم"` the first synonym clause carries
boost 2.5 while the cross-field `multi_match` clause carries boost 2.8, so
the claimed ordering `synonym (first 3) > cross-field` is false. -/
theorem enhancedQuery_boost_order_claim_false :
    (shouldClauses (create_enhanced_query "صوم")).get? 3
        = some (synonymMatchClause "صيام" 2.5) ∧
    (shouldClauses (create_enhanced_query "صوم")).get? 7 = some (multiMatchClause "صوم") ∧
    clauseBoost (synonymMatchClause "صيام" 2.5) = some (.num 2.5) ∧
    clauseBoost (multiMatchClause "صوم") = some (.num 2.8) ∧
    ¬ ((2.5 : ℚ) > 2.8) := by
  refine ⟨rfl, rfl, rfl, rfl, by norm_num⟩

/-- C2 (amended): with no embedding, `create_hybrid_query` wraps the
unchanged lexical query as the second disjunct beside a `knn` semantic
clause; the result is never structurally equal to `create_enhanced_query`
itself. -/
theorem hybridQuery_none_shape (t : String) :
    create_hybrid_query t Option.none
      = .obj [("bool", .obj
          [("should", .arr [create_semantic_query t Option.none, create_enhanced_query t]),
           ("minimum_should_match", .num 1)])] ∧
    create_hybrid_query t Option.none ≠ create_enhanced_query t := by
  refine ⟨rfl, fun h => ?_⟩
  have hlen : shouldLen (create_hybrid_query t Option.none)
      = shouldLen (create_enhanced_query t) := congrArg shouldLen h
  rw [shouldLen_hybrid] at hlen
  have h5 := shouldLen_enhanced_ge t
  omega

/-- C2 counterexample: on the term `"صوم"`,
`create_hybrid_query "صوم" None` has 2 `should` clauses while
`create_enhanced_query "صوم"` has 9, so the two queries are not equal. -/
theorem hybridQuery_none_ne_enhanced_example :
    create_hybrid_query "صوم" Option.none ≠ create_enhanced_query "صوم" := by
  intro h
  have hlen : (2 : Nat) = 9 := congrArg shouldLen h
  norm_num at hlen

/-- C6 (amended): in basic and enhanced mode the count and the fetch are
issued with one and the same composed query, but in semantic mode the fetch
uses the hybrid query while the count uses the enhanced lexical query — and
those two queries differ for every term and embedding. -/
theorem count_fetch_queries_by_mode
    (es : ES) (t : String) (size : Int) (emb : List ℚ) (n nb : Nat)
    (hits bhits ehits : List SrcHit)
    (hidx : es.indicesExists "transcription_with_embeddings" = true)
    (hc : es.count "transcription_with_embeddings" (create_enhanced_query t) = .ok n)
    (hf : es.searchQ "transcription_with_embeddings" (create_hybrid_query t (some emb))
        (min size 1000) = .ok hits)
    (hcb : es.count "transcription" (basicMatchQuery t) = .ok nb)
    (hfb : es.searchQ "transcription" (basicMatchQuery t) (min size 1000) = .ok bhits)
    (hfe : es.searchQ "transcription_with_embeddings" (create_enhanced_query t)
        (min size 1000) = .ok ehits) :
    semantic_search es (.ok emb) t size = .ok { hits := hits.map formatHit, total := n } ∧
    enhanced_search es t size = .ok { hits := ehits.map formatHit, total := n } ∧
    basic_search es t size = .ok { hits := bhits.map formatHit, total := nb } ∧
    create_enhanced_query t ≠ create_hybrid_query t (some emb) := by
  refine ⟨?_, ?_, ?_, fun h => ?_⟩
  · unfold semantic_search
    rw [hidx]
    rw [if_neg (by decide)]
    show (match (Except.bind (es.count "transcription_with_embeddings"
            (create_enhanced_query t)) fun total_count =>
          Except.bind (es.searchQ "transcription_with_embeddings"
            (create_hybrid_query t (some emb)) (min size 1000)) fun hits2 =>
          Except.ok { hits := hits2.map formatHit, total := total_count } : Except String SearchRes) with
      | .ok r => Except.ok r
      | .error _ => enhanced_search es t size)
      = .ok { hits := hits.map formatHit, total := n }
    rw [hc, hf]
    rfl
  · unfold enhanced_search
    simp only [hidx, if_true]
    rw [hc, hfe]
    rfl
  · unfold basic_search
    simp only []
    rw [hcb, hfb]
    rfl
  · have hlen : shouldLen (create_enhanced_query t)
        = shouldLen (create_hybrid_query t (some emb)) := congrArg shouldLen h
    rw [shouldLen_hybrid] at hlen
    have h5 := shouldLen_enhanced_ge t
    omega

/-- C6 witness: the sample oracle satisfies all hypotheses at the term
`"صوم"` with the embedding `[1]`. -/
theorem count_fetch_queries_by_mode_witness :
    semantic_search esW (.ok [1]) "صوم" 10 = .ok { hits := List.map formatHit [], total := 7 } ∧
    enhanced_search esW "صوم" 10 = .ok { hits := List.map formatHit [], total := 7 } ∧
    basic_search esW "صوم" 10 = .ok { hits := List.map formatHit [], total := 7 } ∧
    create_enhanced_query "صوم" ≠ create_hybrid_query "صوم" (some [1]) :=
  count_fetch_queries_by_mode esW "صوم" 10 [1] 7 7 [] [] [] rfl rfl rfl rfl rfl rfl

/-- C6 counterexample: against an oracle whose count answers with the number
of `should` clauses of the query it receives, semantic search for `"صوم"`
reports total 9 — the clause count of the enhanced lexical query — while the
hybrid query used for the fetch has 2 clauses: the count call is not issued
with the fetch query. -/
theorem semantic_count_uses_lexical_query_example :
    semantic_search esProbe (.ok [1]) "صوم" 10 = .ok { hits := [], total := 9 } ∧
    shouldLen (create_hybrid_query "صوم" (some [1])) = 2 ∧
    (9 : Nat) ≠ 2 := by
  refine ⟨rfl, rfl, by norm_num⟩

/-- C3 (amended): when the embeddings index exists and the embedding step
fails, `/search` in mode `semantic` silently returns the result of
`enhanced_search` with status 200 — but the response's `mode` field still
reports the requested `"semantic"`, not the actually used `"enhanced"`. -/
theorem semanticMode_embedFail_keeps_requested_mode
    (es : ES) (msg t : String) (size : Int) (r : SearchRes)
    (hidx : es.indicesExists "transcription_with_embeddings" = true)
    (ht : ¬ t = "")
    (henh : enhanced_search es t size = .ok r) :
    semantic_search es (.error msg) t size = .ok r ∧
    searchEndpoint es (.error msg) true t size "semantic"
      = { results := r.hits, total := r.total, returned := some r.hits.length,
          mode := some "semantic", error := none, status := 200 } := by
  have hsem : semantic_search es (.error msg) t size = enhanced_search es t size := by
    unfold semantic_search
    rw [hidx]
    rfl
  refine ⟨hsem.trans henh, ?_⟩
  unfold searchEndpoint
  rw [if_neg ht, hsem, henh]
  rfl

/-- C3 witness: with the sample oracle and a failing embedding, mode
`semantic` yields the enhanced result with status 200 and `mode` field
`"semantic"`. -/
theorem semanticMode_embedFail_keeps_requested_mode_witness :
    semantic_search esW (.error "boom") "صوم" 10 = .ok { hits := [], total := 7 } ∧
    searchEndpoint esW (.error "boom") true "صوم" 10 "semantic"
      = { results := [], total := 7, returned := some 0, mode := some "semantic",
          error := none, status := 200 } :=
  semanticMode_embedFail_keeps_requested_mode esW "boom" "صوم" 10
    { hits := [], total := 7 } rfl (by decide) rfl

/-- C3 counterexample: the fallback response is a 200 success, but its mode
field is `"semantic"` (the requested mode), not the claimed `"enhanced"`. -/
theorem semanticMode_embedFail_mode_not_enhanced :
    (searchEndpoint esW (.error "embed fail") true "صوم" 10 "semantic").status = 200 ∧
    (searchEndpoint esW (.error "embed fail") true "صوم" 10 "semantic").mode
        = some "semantic" ∧
    (some "semantic" : Option String) ≠ some "enhanced" := by
  refine ⟨rfl, rfl, by decide⟩

/-- C4 (amended): the aggregator emits one group per distinct truthy
`group_id` of the *fetched* documents, in the order the groups first appear
in the fetch (not in the initial ranked hits), with no duplicate groups, and
each group's items are the formatted image of a sequence-sorted list (so
they are sequence-ascending regardless of fetch order). -/
theorem appv2_grouping_actual_order (initialHits : List VHit) (fetched : List GDoc)
    (h : (groupIdsOf initialHits).isEmpty = false) :
    (appv2_search initialHits fetched).1
        = (buildGroups initialHits fetched).map
            (fun p => { group_id := p.1, items := (sortBySequence p.2).map formatItem }) ∧
    (appv2_search initialHits fetched).1.map (·.group_id) = fetchGroupOrder fetched ∧
    ((appv2_search initialHits fetched).1.map (·.group_id)).Nodup ∧
    ∀ items : List Item,
      List.Sorted (fun a b => a.sequence ≤ b.sequence) (sortBySequence items) := by
  have h1 : (appv2_search initialHits fetched).1
      = (buildGroups initialHits fetched).map
          (fun p => { group_id := p.1, items := (sortBySequence p.2).map formatItem : GroupOut }) := by
    unfold appv2_search
    rw [h]
    rfl
  have hkeys : (appv2_search initialHits fetched).1.map (·.group_id)
      = fetchGroupOrder fetched := by
    rw [h1, List.map_map]
    have hcomp : ((fun g : GroupOut => g.group_id) ∘ fun p : String × List Item =>
        ({ group_id := p.1, items := (sortBySequence p.2).map formatItem } : GroupOut))
        = fun p : String × List Item => p.1 := rfl
    rw [hcomp]
    have hb := buildGroups_keys_general initialHits fetched []
    calc (buildGroups initialHits fetched).map (fun p => p.1)
        = ([] : List (String × List Item)).map (·.1)
            ++ dedupSeen (([] : List (String × List Item)).map (·.1)) (truthyGids fetched) := hb
      _ = dedupSeen [] (truthyGids fetched) := by simp
      _ = fetchGroupOrder fetched := rfl
  refine ⟨h1, hkeys, ?_, fun items => sortBySequence_sorted items⟩
  rw [hkeys]
  exact (dedupSeen_nodup (truthyGids fetched) []).1

/-- C4 witness: the sample inputs have a nonempty group set, and the emitted
group order is the fetch order. -/
theorem appv2_grouping_actual_order_witness :
    (groupIdsOf sampleInitial).isEmpty = false ∧
    (appv2_search sampleInitial sampleFetched).1.map (·.group_id)
        = fetchGroupOrder sampleFetched :=
  ⟨rfl, (appv2_grouping_actual_order sampleInitial sampleFetched rfl).2.1⟩

/-- C4 counterexample: the initial ranked hits encounter `g2` before `g1`,
but the aggregator emits `g1` before `g2` (the fetch order), so groups are
not emitted in the first-seen order of the initial ranked hits. -/
theorem appv2_group_order_not_initial_first_seen :
    (appv2_search sampleInitial sampleFetched).1.map (·.group_id) = ["g1", "g2"] ∧
    firstSeenGroupOrder sampleInitial = ["g2", "g1"] ∧
    (["g1", "g2"] : List String) ≠ ["g2", "g1"] := by
  refine ⟨rfl, rfl, by decide⟩

end Deenseek
